import Mathlib

/-!
# Verification of the idenLookup face-matching pipeline

Shallow embedding of the matching/scoring core of the `idenLookup` repository:

* `src/Backend/final_facial_embedding.py` — the face-matching pipeline
  (`load_profiles`, `get_face_embedding`, `compute_similarity`, `main`,
  `download_compare`);
* `src/Backend/integrated_system.py` — `FaceRecognitionEngine.get_embedding`,
  `FaceRecognitionEngine.compute_similarity`, `FacialMatcher.fuzzy_ratio`,
  `FacialMatcher.score_profiles`, and
  `ProfileVerificationSystem.verify_with_facial_recognition`;
* `src/Backend/api.py` — the `/match` result formatter.

Python floats are modelled by `ℚ` where the source only adds, multiplies,
compares, truncates and rounds, and by `ℝ` where a square root is involved
(cosine similarity).  Fallible steps (image decode, download, face detection)
are modelled with `Option`.
-/

namespace IdenLookup

/-! ## Configuration constants (final_facial_embedding.py lines 32-34) -/

/-- `SIMILARITY_THRESHOLD = 0.35` -/
def SIMILARITY_THRESHOLD : ℚ := mkRat 35 100

/-- `DETECTION_SCORE_THRESHOLD = 0.5` -/
def DETECTION_SCORE_THRESHOLD : ℚ := mkRat 1 2

/-! ## Match records

`download_compare` (final_facial_embedding.py lines 176-198) emits
`{"name": ..., "profile": ..., "similarity": round(sim, 4)}` per candidate. -/

structure MatchResult where
  name : String
  profile : String
  similarity : ℚ
deriving DecidableEq, Repr

/-- Descending-by-similarity comparison used by
`sorted(results, key=lambda x: x["similarity"], reverse=True)`
(final_facial_embedding.py line 162).  Python's `sorted` is a *stable* sort;
a stable sort by a key is extensionally unique, and with the relation
`b.similarity ≤ a.similarity` Mathlib's `List.insertionSort` is exactly that
stable descending sort. -/
def simDesc (a b : MatchResult) : Prop := b.similarity ≤ a.similarity

instance : DecidableRel simDesc := fun a b =>
  inferInstanceAs (Decidable (b.similarity ≤ a.similarity))

instance : IsTotal MatchResult simDesc :=
  ⟨fun a b => le_total b.similarity a.similarity⟩

instance : IsTrans MatchResult simDesc :=
  ⟨fun _ _ _ h h' => le_trans h' h⟩

/-- The final post-processing of the collected per-candidate results,
final_facial_embedding.py lines 162-163:

    results = sorted(results, key=lambda x: x["similarity"], reverse=True)
    results = [r for r in results if r["similarity"] >= SIMILARITY_THRESHOLD][:4]
-/
def finalizeResults (results : List MatchResult) : List MatchResult :=
  ((results.insertionSort simDesc).filter
    (fun r => decide (SIMILARITY_THRESHOLD ≤ r.similarity))).take 4

/-! ## Theorems -/

/-- Helper: the finalized list is a sublist of the sorted list. -/
theorem finalizeResults_sublist (results : List MatchResult) :
    List.Sublist (finalizeResults results) (results.insertionSort simDesc) :=
  (List.take_sublist _ _).trans (List.filter_sublist _)

/-- **C1.** For every run of the face-matching pipeline, the final result
collection is sorted by similarity score in descending order (every adjacent
pair satisfies `results[i].similarity ≥ results[i+1].similarity`), every
retained entry has similarity at least the configured threshold `0.35`, and
the collection contains at most 4 entries.  Stated for an arbitrary collected
result list, hence for every completion order of the worker pool. -/
theorem finalizeResults_sorted_filtered_truncated (results : List MatchResult) :
    (finalizeResults results).Chain' (fun a b => b.similarity ≤ a.similarity) ∧
    (∀ r ∈ finalizeResults results, SIMILARITY_THRESHOLD ≤ r.similarity) ∧
    (finalizeResults results).length ≤ 4 := by
  refine ⟨?_, ?_, ?_⟩
  · have hs : (results.insertionSort simDesc).Pairwise simDesc :=
      List.sorted_insertionSort simDesc results
    exact ((hs.sublist (finalizeResults_sublist results)).imp (fun h => h)).chain'
  · intro r hr
    have hr' : r ∈ (results.insertionSort simDesc).filter
        (fun r => decide (SIMILARITY_THRESHOLD ≤ r.similarity)) :=
      List.mem_of_mem_take hr
    simpa using (List.mem_filter.mp hr').2
  · exact (List.length_take_le _ _)

/-- Witness for C1 at a concrete input: a single collected result with
similarity `1/2` is retained and satisfies the threshold bound. -/
theorem finalizeResults_sorted_filtered_truncated_witness :
    SIMILARITY_THRESHOLD ≤ (⟨"A", "urlA", mkRat 1 2⟩ : MatchResult).similarity :=
  (finalizeResults_sorted_filtered_truncated [⟨"A", "urlA", mkRat 1 2⟩]).2.1
    ⟨"A", "urlA", mkRat 1 2⟩ (by decide)

/-! ## Determinism of the ranking (C5)

The pipeline collects worker results with `as_completed` (lines 157-160), so
the list reaching the sort is an arbitrary permutation (completion order) of
the per-candidate results; the stable sort then preserves *that* order among
ties, not candidate-pool order. -/

/-- Helper: strict descending similarity is antisymmetric (vacuously). -/
theorem simStrictDesc_antisymm :
    IsAntisymm MatchResult (fun a b => b.similarity < a.similarity) :=
  ⟨fun _ _ h h' => absurd (h.trans h') (lt_irrefl _)⟩

/-- Helper: sorting two permuted collections whose similarity scores are
pairwise distinct yields the same list. -/
theorem insertionSort_perm_nodup_eq (l₁ l₂ : List MatchResult)
    (hp : l₁.Perm l₂) (hn : (l₁.map MatchResult.similarity).Nodup) :
    l₁.insertionSort simDesc = l₂.insertionSort simDesc := by
  haveI := simStrictDesc_antisymm
  have hperm : (l₁.insertionSort simDesc).Perm (l₂.insertionSort simDesc) :=
    (List.perm_insertionSort simDesc l₁).trans
      (hp.trans (List.perm_insertionSort simDesc l₂).symm)
  have strict : ∀ l : List MatchResult, (l.map MatchResult.similarity).Nodup →
      (l.insertionSort simDesc).Pairwise
        (fun a b => b.similarity < a.similarity) := by
    intro l hl
    have hsort : (l.insertionSort simDesc).Pairwise simDesc :=
      List.sorted_insertionSort simDesc l
    have hnd : ((l.insertionSort simDesc).map MatchResult.similarity).Nodup :=
      hl.perm ((List.perm_insertionSort simDesc l).map _).symm
    have hne : (l.insertionSort simDesc).Pairwise
        (fun a b => a.similarity ≠ b.similarity) :=
      List.pairwise_map.mp hnd
    exact (hsort.and hne).imp (fun h => lt_of_le_of_ne h.1 h.2.symm)
  exact List.eq_of_perm_of_sorted hperm (strict l₁ hn)
    (strict l₂ (hn.perm (hp.map _)))

/-- **C5 (amended).** If no two collected candidates carry the same similarity
score, the final output is independent of worker completion order: any two
completion orders (permutations of the same per-candidate results) produce
identical final collections.  (With tied scores the tied group follows
completion order, not candidate-pool order — see the counterexample.) -/
theorem finalizeResults_deterministic_of_nodup (l₁ l₂ : List MatchResult)
    (hp : l₁.Perm l₂) (hn : (l₁.map MatchResult.similarity).Nodup) :
    finalizeResults l₁ = finalizeResults l₂ := by
  unfold finalizeResults
  rw [insertionSort_perm_nodup_eq l₁ l₂ hp hn]

/-- Witness for the amended C5: the two completion orders of results with
distinct scores 1/2 and 7/10 finalize identically. -/
theorem finalizeResults_deterministic_of_nodup_witness :
    finalizeResults [⟨"A", "urlA", mkRat 1 2⟩, ⟨"C", "urlC", mkRat 7 10⟩] =
    finalizeResults [⟨"C", "urlC", mkRat 7 10⟩, ⟨"A", "urlA", mkRat 1 2⟩] :=
  finalizeResults_deterministic_of_nodup _ _
    (List.Perm.swap (⟨"C", "urlC", mkRat 7 10⟩ : MatchResult) ⟨"A", "urlA", mkRat 1 2⟩ [])
    (by decide)

/-- **C5 counterexample.** Two candidates with equal similarity `1/2`: both
collection orders are permutations of the same per-candidate results (two runs
differing only in completion timing), yet the final outputs differ — ties
follow completion order, so the output *does* depend on task completion
timing, contrary to the claim. -/
theorem finalizeResults_tie_depends_on_completion_order :
    ([⟨"A", "urlA", mkRat 1 2⟩, ⟨"B", "urlB", mkRat 1 2⟩] : List MatchResult).Perm
      [⟨"B", "urlB", mkRat 1 2⟩, ⟨"A", "urlA", mkRat 1 2⟩] ∧
    finalizeResults [⟨"A", "urlA", mkRat 1 2⟩, ⟨"B", "urlB", mkRat 1 2⟩] ≠
    finalizeResults [⟨"B", "urlB", mkRat 1 2⟩, ⟨"A", "urlA", mkRat 1 2⟩] :=
  ⟨List.Perm.swap (⟨"B", "urlB", mkRat 1 2⟩ : MatchResult) ⟨"A", "urlA", mkRat 1 2⟩ [],
   by decide⟩

/-! ## Candidate profiles and `profiles.json` (`load_profiles`, C6)

`imageUrl` stands for the probed chain
`p["profilePicture"]["displayImage~"]["elements"][0]["identifiers"][0]["identifier"]`
(final_facial_embedding.py lines 146-152): `none` when any link of the chain
is absent, in which case the candidate is skipped. -/

structure Profile where
  localizedFirstName : String
  localizedLastName : String
  publicProfileUrl : String
  imageUrl : Option String
deriving DecidableEq, Repr

/-- Possible contents of `profiles.json`: absent, unparsable, a plain JSON
list of profile records, or a dict wrapping the records under an
`"elements"` key (the shape produced by `format.py`). -/
inductive ProfilesFile where
  | missing
  | invalid
  | plainList (ps : List Profile)
  | wrappedElements (ps : List Profile)
deriving DecidableEq, Repr

/-- `load_profiles` (final_facial_embedding.py lines 45-62).  Returns the
loaded record list together with the state of `profiles.json` afterwards:

    data = json.load(f)
    if isinstance(data, dict) and "elements" in data:
        data = data["elements"]
        with open(PROFILES_PATH, "w", encoding="utf-8") as f2:
            json.dump(data, f2, indent=2)        # rewrites the backing file
    return data
-/
def load_profiles : ProfilesFile → List Profile × ProfilesFile
  | .missing => ([], .missing)
  | .invalid => ([], .invalid)
  | .plainList ps => (ps, .plainList ps)
  | .wrappedElements ps => (ps, .plainList ps)

/-- **C6 counterexample.** When `profiles.json` holds the `{"elements": ...}`
wrapper (the very shape `format.py` writes), `load_profiles` rewrites the
backing file: after the load the file no longer holds its original content,
so the profiles data backing file is *not* unchanged by a run. -/
theorem load_profiles_rewrites_wrapped_file :
    (load_profiles (.wrappedElements [⟨"Jon", "Smith", "urlJ", none⟩])).2 ≠
      ProfilesFile.wrappedElements [⟨"Jon", "Smith", "urlJ", none⟩] := by
  decide

/-- **C6 (amended).** The pipeline never alters the candidate profile
*records*: the loaded list is exactly the stored one, and a plain-list
`profiles.json` is left unchanged; but a file wrapped under an `"elements"`
key is rewritten in place to the unwrapped list of the same records. -/
theorem load_profiles_record_preserving (ps : List Profile) :
    load_profiles (.plainList ps) = (ps, .plainList ps) ∧
    load_profiles (.wrappedElements ps) = (ps, .plainList ps) :=
  ⟨rfl, rfl⟩

/-! ## The pipeline runs (`main`, `verify_with_facial_recognition`; C7) -/

/-- Embedding vectors (`np.ndarray` of a fixed dimension), modelled over ℚ. -/
abbrev Emb := List ℚ

/-- The candidates for which `main` submits a worker task
(final_facial_embedding.py lines 145-155): exactly those whose probed
image-URL chain produced a URL. -/
def submittedTasks (profiles : List Profile) : List Profile :=
  profiles.filter (fun p => p.imageUrl.isSome)

structure RunOutput where
  results : List MatchResult
  tasks : List Profile
  failed : Bool
deriving DecidableEq, Repr

/-- `main` (final_facial_embedding.py lines 111-173).  `imageExists` models
the `os.path.exists(image_path)` check; `queryEmb` the outcome of
`get_face_embedding` on the query image; `outcome p` the result of
`download_compare` for candidate `p` (`none` when the download, decode or
face extraction fails, line 176-198).  `failed = true` models the early
`return` paths, on which `top_matches.json` is never written.  Collected
results are listed in candidate-pool order; `as_completed` delivers them in
an arbitrary permutation of that, which the C5 theorems account for. -/
def mainRun (imageExists : Bool) (profiles : List Profile)
    (queryEmb : Option Emb) (outcome : Profile → Option MatchResult) :
    RunOutput :=
  if !imageExists then ⟨[], [], true⟩
  else if profiles.isEmpty then ⟨[], [], true⟩
  else
    match queryEmb with
    | none => ⟨[], [], true⟩
    | some _ =>
      let tasks := submittedTasks profiles
      ⟨finalizeResults (tasks.filterMap outcome), tasks, false⟩

structure VerifyOutput where
  success : Bool
  matchList : List MatchResult  -- the "matches" key of the result dict
  errors : List String
deriving DecidableEq, Repr

/-- `ProfileVerificationSystem.verify_with_facial_recognition`
(integrated_system.py lines 916-973), with the same conventions as
`mainRun`; its match records are `{"name", "profile_url", "similarity"}`. -/
def verify_with_facial_recognition (profiles : List Profile)
    (queryEmb : Option Emb) (outcome : Profile → Option MatchResult) :
    VerifyOutput :=
  if profiles.isEmpty then
    ⟨false, [], ["No LinkedIn profiles found (profiles.json)"]⟩
  else
    match queryEmb with
    | none => ⟨false, [], ["No face found in candidate image"]⟩
    | some _ =>
      let out := ((submittedTasks profiles).filterMap outcome).insertionSort simDesc
      ⟨!out.isEmpty, out.take 10, []⟩

/-- **C7.** A run whose query image yields no usable face embedding
terminates with zero results and a failure indicator, and spawns no
per-candidate tasks — in `main` the early `return` leaves the result list
empty and no worker submitted; in `verify_with_facial_recognition` the run
returns `success = False`, empty `matches` and the error
`"No face found in candidate image"` without touching any candidate. -/
theorem noQueryFace_zero_results_no_tasks (profiles : List Profile)
    (outcome : Profile → Option MatchResult) (h : profiles ≠ []) :
    mainRun true profiles none outcome = ⟨[], [], true⟩ ∧
    verify_with_facial_recognition profiles none outcome =
      ⟨false, [], ["No face found in candidate image"]⟩ := by
  have h' : profiles.isEmpty = false := by
    cases profiles with
    | nil => exact absurd rfl h
    | cons p ps => rfl
  constructor
  · simp [mainRun, h']
  · simp [verify_with_facial_recognition, h']

/-- Witness for C7 at a concrete input. -/
theorem noQueryFace_zero_results_no_tasks_witness :
    mainRun true [⟨"Jon", "Smith", "urlJ", none⟩] none (fun _ => none) =
      ⟨[], [], true⟩ ∧
    verify_with_facial_recognition [⟨"Jon", "Smith", "urlJ", none⟩] none
      (fun _ => none) = ⟨false, [], ["No face found in candidate image"]⟩ :=
  noQueryFace_zero_results_no_tasks [⟨"Jon", "Smith", "urlJ", none⟩]
    (fun _ => none) (by decide)

/-! ## The embedding extractor (`get_face_embedding`, C8 and C10)

A detected face as returned by the opaque `app.get(img)` capability: a
bounding box `bbox = [x1, y1, x2, y2]`, an embedding, and a detection score
that may be absent (`det_score = none` models the attribute missing on the
object, read as `getattr(f, "det_score", 1.0)`). -/

structure Face where
  det_score : Option ℚ
  x1 : ℚ
  y1 : ℚ
  x2 : ℚ
  y2 : ℚ
  embedding : Emb
deriving DecidableEq, Repr

/-- `getattr(f, "det_score", 1.0)` (final_facial_embedding.py line 94,
integrated_system.py line 145). -/
def Face.detScore (f : Face) : ℚ := f.det_score.getD 1

/-- The sort key `(x.bbox[2]-x.bbox[0])*(x.bbox[3]-x.bbox[1])`
(final_facial_embedding.py line 99, integrated_system.py line 150). -/
def Face.area (f : Face) : ℚ := (f.x2 - f.x1) * (f.y2 - f.y1)

/-- Descending-by-area comparison of `faces.sort(key=..., reverse=True)`;
`list.sort` is stable, so `insertionSort` with this relation models it. -/
def areaDesc (f g : Face) : Prop := g.area ≤ f.area

instance : DecidableRel areaDesc := fun f g =>
  inferInstanceAs (Decidable (g.area ≤ f.area))

instance : IsTotal Face areaDesc := ⟨fun f g => le_total g.area f.area⟩

instance : IsTrans Face areaDesc := ⟨fun _ _ _ h h' => le_trans h' h⟩

/-- The quality filter
`[f for f in faces if getattr(f, "det_score", 1.0) >= DETECTION_SCORE_THRESHOLD]`. -/
def keptFaces (faces : List Face) : List Face :=
  faces.filter (fun f => decide (DETECTION_SCORE_THRESHOLD ≤ f.detScore))

/-- `get_face_embedding` (final_facial_embedding.py lines 83-100):
`decoded = none` models `cv2.imread` failing; then the no-face, quality
filter, and largest-area selection steps.
`FaceRecognitionEngine.get_embedding` (integrated_system.py lines 131-151)
is the same computation — it merely skips the sort when exactly one face
remains, which selects the same face. -/
def get_face_embedding (decoded : Option (List Face)) : Option Emb :=
  match decoded with
  | none => none
  | some faces =>
    if faces.isEmpty then none
    else
      match (keptFaces faces).insertionSort areaDesc with
      | [] => none
      | f :: _ => some f.embedding

/-- **C8.** The extractor discards every detected face whose detection score
(defaulting to 1.0 when absent) is below the threshold 0.5; if none remain it
returns the no-face outcome; and any returned embedding belongs to a face
that passed the filter and whose bounding-box area (width × height) is
maximal among all passing faces. -/
theorem get_face_embedding_largest_qualifying_face (faces : List Face) :
    (keptFaces faces = [] → get_face_embedding (some faces) = none) ∧
    (∀ e, get_face_embedding (some faces) = some e →
      ∃ f ∈ faces, DETECTION_SCORE_THRESHOLD ≤ f.detScore ∧ e = f.embedding ∧
        ∀ g ∈ faces, DETECTION_SCORE_THRESHOLD ≤ g.detScore →
          g.area ≤ f.area) := by
  constructor
  · intro h
    simp [get_face_embedding, h]
  · intro e he
    cases hempty : faces.isEmpty with
    | true => simp [get_face_embedding, hempty] at he
    | false =>
      simp only [get_face_embedding, hempty, Bool.false_eq_true, if_false] at he
      cases hsort : (keptFaces faces).insertionSort areaDesc with
      | nil => rw [hsort] at he; exact absurd he (by simp)
      | cons f rest =>
        rw [hsort] at he
        have hef : e = f.embedding := by
          simpa using he.symm
        have hperm : ((keptFaces faces).insertionSort areaDesc).Perm
            (keptFaces faces) := List.perm_insertionSort areaDesc _
        have hfkept : f ∈ keptFaces faces := by
          refine hperm.mem_iff.mp ?_
          rw [hsort]; exact List.mem_cons_self f rest
        have hfmem : f ∈ faces := List.mem_of_mem_filter hfkept
        have hfscore : DETECTION_SCORE_THRESHOLD ≤ f.detScore := by
          simpa using (List.mem_filter.mp hfkept).2
        refine ⟨f, hfmem, hfscore, hef, ?_⟩
        intro g hg hgscore
        have hgkept : g ∈ keptFaces faces :=
          List.mem_filter.mpr ⟨hg, by simpa using hgscore⟩
        have hgsorted : g ∈ f :: rest := by
          rw [← hsort]; exact hperm.mem_iff.mpr hgkept
        rcases List.mem_cons.mp hgsorted with hgf | hgrest
        · rw [hgf]
        · have hpair : ((keptFaces faces).insertionSort areaDesc).Pairwise
              areaDesc := List.sorted_insertionSort areaDesc _
          rw [hsort] at hpair
          exact (List.pairwise_cons.mp hpair).1 g hgrest

/-- Witness for C8 at a concrete input: among a high-score small face, a
low-score face and a score-less large face, the extractor returns the
embedding of the largest passing face. -/
theorem get_face_embedding_largest_qualifying_face_witness :
    ∃ f ∈ [(⟨some (mkRat 9 10), 0, 0, 1, 1, [mkRat 3 1]⟩ : Face),
           ⟨some (mkRat 1 4), 0, 0, mkRat 5 1, mkRat 5 1, [mkRat 4 1]⟩,
           ⟨none, 0, 0, mkRat 2 1, mkRat 2 1, [mkRat 5 1]⟩],
      DETECTION_SCORE_THRESHOLD ≤ f.detScore ∧ ([mkRat 5 1] : Emb) = f.embedding ∧
        ∀ g ∈ [(⟨some (mkRat 9 10), 0, 0, 1, 1, [mkRat 3 1]⟩ : Face),
               ⟨some (mkRat 1 4), 0, 0, mkRat 5 1, mkRat 5 1, [mkRat 4 1]⟩,
               ⟨none, 0, 0, mkRat 2 1, mkRat 2 1, [mkRat 5 1]⟩],
          DETECTION_SCORE_THRESHOLD ≤ g.detScore → g.area ≤ f.area :=
  (get_face_embedding_largest_qualifying_face _).2 [mkRat 5 1]
    (by with_unfolding_all decide)

/-- **C10.** A detected face carrying no detection-score attribute at all is
read back as score 1.0, hence always passes the 0.5 quality filter and can be
selected as the dominant face (it is selected whenever it is the only
detected face, and by C8 whenever its area is largest). -/
theorem missing_det_score_passes_filter (faces : List Face) (f : Face)
    (hmem : f ∈ faces) (hnone : f.det_score = none) :
    f.detScore = 1 ∧ f ∈ keptFaces faces ∧
    get_face_embedding (some [f]) = some f.embedding := by
  have hd : f.detScore = 1 := by simp [Face.detScore, hnone]
  have hpred : decide (DETECTION_SCORE_THRESHOLD ≤ f.detScore) = true := by
    rw [hd]; decide
  have hk : keptFaces [f] = [f] := by
    simp [keptFaces, List.filter, hpred]
  refine ⟨hd, List.mem_filter.mpr ⟨hmem, hpred⟩, ?_⟩
  simp [get_face_embedding, hk]

/-- Witness for C10 at a concrete input. -/
theorem missing_det_score_passes_filter_witness :
    (⟨none, 0, 0, mkRat 2 1, mkRat 2 1, [mkRat 5 1]⟩ : Face).detScore = 1 ∧
    (⟨none, 0, 0, mkRat 2 1, mkRat 2 1, [mkRat 5 1]⟩ : Face) ∈
      keptFaces [⟨some (mkRat 1 4), 0, 0, mkRat 5 1, mkRat 5 1, [mkRat 4 1]⟩,
                 ⟨none, 0, 0, mkRat 2 1, mkRat 2 1, [mkRat 5 1]⟩] ∧
    get_face_embedding (some [⟨none, 0, 0, mkRat 2 1, mkRat 2 1, [mkRat 5 1]⟩]) =
      some (⟨none, 0, 0, mkRat 2 1, mkRat 2 1, [mkRat 5 1]⟩ : Face).embedding :=
  missing_det_score_passes_filter _ _ (by decide) rfl

/-! ## The `/match` result formatter (api.py lines 52-61, C4) -/

/-- Python's `int()` truncation toward zero on a rational. -/
def pyInt (q : ℚ) : ℤ := if 0 ≤ q then ⌊q⌋ else ⌈q⌉

structure FormattedMatch where
  name : String
  platform : String
  confidence : ℤ
  status : String
  profile : String
deriving DecidableEq, Repr

/-- One iteration of the formatting loop of the `/match` endpoint
(api.py lines 52-61):

    similarity_percent = int(r["similarity"] * 100)
    formatted.append({
        "name": r["name"],
        "platform": "LinkedIn",
        "confidence": similarity_percent,
        "status": "verified" if similarity_percent >= 50 else "pending",
        "profile": r["profile"]})
-/
def formatMatch (r : MatchResult) : FormattedMatch :=
  let similarity_percent := pyInt (r.similarity * 100)
  { name := r.name
    platform := "LinkedIn"
    confidence := similarity_percent
    status := if 50 ≤ similarity_percent then "verified" else "pending"
    profile := r.profile }

/-- **C4 counterexample.** At similarity `11/16 = 0.6875` (a value exactly
representable in binary floating point, so the Python run computes the same
number) the formatter produces confidence `int(68.75) = 68`, whereas
`round(0.6875 * 100) = 69`: the code truncates, it does not round. -/
theorem formatMatch_truncates_not_rounds :
    (formatMatch ⟨"Jon Smith", "urlJ", mkRat 11 16⟩).confidence ≠
      round ((mkRat 11 16 : ℚ) * 100) := by
  with_unfolding_all decide

/-- **C4 (amended).** For every match record with similarity in `[0, 1]`, the
formatter produces `confidence = ⌊similarity * 100⌋` (Python `int()`
truncation, which on non-negative input is the floor — *not* `round`), an
integer in 0–100; sets status to `"verified"` exactly when
`confidence ≥ 50` and `"pending"` otherwise; and passes the display name and
profile reference through unchanged. -/
theorem formatMatch_spec (r : MatchResult)
    (h0 : 0 ≤ r.similarity) (h1 : r.similarity ≤ 1) :
    (formatMatch r).confidence = ⌊r.similarity * 100⌋ ∧
    0 ≤ (formatMatch r).confidence ∧ (formatMatch r).confidence ≤ 100 ∧
    (formatMatch r).status =
      (if 50 ≤ (formatMatch r).confidence then "verified" else "pending") ∧
    (formatMatch r).name = r.name ∧
    (formatMatch r).profile = r.profile ∧
    (formatMatch r).platform = "LinkedIn" := by
  have hp : (0 : ℚ) ≤ r.similarity * 100 := by positivity
  have hconf : (formatMatch r).confidence = ⌊r.similarity * 100⌋ := by
    simp [formatMatch, pyInt, hp]
  refine ⟨hconf, ?_, ?_, rfl, rfl, rfl, rfl⟩
  · rw [hconf]
    exact Int.floor_nonneg.mpr hp
  · rw [hconf]
    calc ⌊r.similarity * 100⌋ ≤ ⌊(100 : ℚ)⌋ :=
          Int.floor_le_floor (by nlinarith)
    _ = 100 := by norm_num

/-- Witness for the amended C4 at similarity `11/16`. -/
theorem formatMatch_spec_witness :
    (formatMatch ⟨"Jon Smith", "urlJ", mkRat 11 16⟩).confidence =
      ⌊(mkRat 11 16 : ℚ) * 100⌋ ∧
    0 ≤ (formatMatch ⟨"Jon Smith", "urlJ", mkRat 11 16⟩).confidence ∧
    (formatMatch ⟨"Jon Smith", "urlJ", mkRat 11 16⟩).confidence ≤ 100 ∧
    (formatMatch ⟨"Jon Smith", "urlJ", mkRat 11 16⟩).status =
      (if 50 ≤ (formatMatch ⟨"Jon Smith", "urlJ", mkRat 11 16⟩).confidence
       then "verified" else "pending") ∧
    (formatMatch ⟨"Jon Smith", "urlJ", mkRat 11 16⟩).name = "Jon Smith" ∧
    (formatMatch ⟨"Jon Smith", "urlJ", mkRat 11 16⟩).profile = "urlJ" ∧
    (formatMatch ⟨"Jon Smith", "urlJ", mkRat 11 16⟩).platform = "LinkedIn" :=
  formatMatch_spec ⟨"Jon Smith", "urlJ", mkRat 11 16⟩ (by decide) (by decide)

/-! ## Cosine similarity (`compute_similarity`, C3) -/

/-- Dot product of two embedding vectors, coordinatewise over the zipped
entries (the numpy inner product underlying
`sklearn.metrics.pairwise.cosine_similarity`). -/
def dot (a b : Emb) : ℚ := (List.zipWith (· * ·) a b).sum

theorem dot_cons_cons (x y : ℚ) (as bs : Emb) :
    dot (x :: as) (y :: bs) = x * y + dot as bs := by
  simp [dot, List.zipWith]

theorem dot_self_nonneg (a : Emb) : 0 ≤ dot a a := by
  induction a with
  | nil => simp [dot]
  | cons x xs ih =>
    rw [dot_cons_cons]
    exact add_nonneg (mul_self_nonneg x) ih

/-- Inductive step of the Cauchy–Schwarz inequality. -/
theorem cs_step (x y d A B : ℚ) (hA : 0 ≤ A) (hB : 0 ≤ B) (hd : d^2 ≤ A * B) :
    (x * y + d)^2 ≤ (x * x + A) * (y * y + B) := by
  rcases hA.eq_or_lt with h0 | hApos
  · have hd0 : d = 0 := by
      have hle : d^2 ≤ 0 := by rw [← h0] at hd; simpa using hd
      have hz : d^2 = 0 := le_antisymm hle (sq_nonneg d)
      exact sq_eq_zero_iff.mp hz
    subst hd0
    nlinarith [mul_nonneg (mul_self_nonneg x) hB, mul_nonneg hA hB]
  · have h2 : x^2 * d^2 ≤ x^2 * (A * B) :=
      mul_le_mul_of_nonneg_left hd (sq_nonneg x)
    have key : A * ((x*y + d)^2) ≤ A * ((x*x + A) * (y*y + B)) := by
      nlinarith [sq_nonneg (x*d - y*A), h2, hd, hApos.le, hB]
    exact le_of_mul_le_mul_left key hApos

/-- Cauchy–Schwarz for the list dot product. -/
theorem dot_sq_le (a : Emb) : ∀ b : Emb, (dot a b)^2 ≤ dot a a * dot b b := by
  induction a with
  | nil => intro b; simp [dot]
  | cons x xs ih =>
    intro b
    cases b with
    | nil => simp [dot]
    | cons y ys =>
      rw [dot_cons_cons, dot_cons_cons, dot_cons_cons]
      exact cs_step x y (dot xs ys) (dot xs xs) (dot ys ys)
        (dot_self_nonneg xs) (dot_self_nonneg ys) (ih ys)

/-- `sklearn.metrics.pairwise.cosine_similarity` on two single-row inputs.
sklearn L2-normalizes each row and maps a zero-norm row to itself, so a
degenerate vector yields similarity `0` and no NaN arises. -/
noncomputable def cosineSim (a b : Emb) : ℝ :=
  if dot a a = 0 ∨ dot b b = 0 then 0
  else (dot a b : ℝ) / (Real.sqrt (dot a a) * Real.sqrt (dot b b))

/-- `compute_similarity` (final_facial_embedding.py lines 103-105 and
`FaceRecognitionEngine.compute_similarity`, integrated_system.py lines
153-157).  Both return `cosine_similarity([emb1],[emb2])[0][0]`; the
`np.isnan` guard of the former and the `except: return 0.0` of the latter
never fire on this total model, in which the degenerate case is already 0. -/
noncomputable def compute_similarity (emb1 emb2 : Emb) : ℝ := cosineSim emb1 emb2

theorem cosineSim_bounds (a b : Emb) :
    -1 ≤ cosineSim a b ∧ cosineSim a b ≤ 1 := by
  unfold cosineSim
  by_cases hdeg : dot a a = 0 ∨ dot b b = 0
  · simp [hdeg]
  · simp only [hdeg, if_false]
    push_neg at hdeg
    have hA : (0:ℝ) < (dot a a : ℝ) := by
      exact_mod_cast lt_of_le_of_ne (dot_self_nonneg a) (Ne.symm hdeg.1)
    have hB : (0:ℝ) < (dot b b : ℝ) := by
      exact_mod_cast lt_of_le_of_ne (dot_self_nonneg b) (Ne.symm hdeg.2)
    have hsq : ((dot a b : ℝ))^2 ≤ (dot a a : ℝ) * (dot b b : ℝ) := by
      exact_mod_cast dot_sq_le a b
    have habs : |(dot a b : ℝ)| ≤
        Real.sqrt ((dot a a : ℝ) * (dot b b : ℝ)) :=
      Real.abs_le_sqrt hsq
    rw [← Real.sqrt_mul hA.le]
    have hden : (0:ℝ) < Real.sqrt ((dot a a : ℝ) * (dot b b : ℝ)) :=
      Real.sqrt_pos.mpr (mul_pos hA hB)
    have h1 : |(dot a b : ℝ) / Real.sqrt ((dot a a : ℝ) * (dot b b : ℝ))| ≤ 1 := by
      rw [abs_div, abs_of_nonneg (Real.sqrt_nonneg _)]
      exact (div_le_one hden).mpr habs
    exact abs_le.mp h1

/-- **C3 counterexample.** The computed similarity of the (valid, nonzero)
embeddings `[1]` and `[-1]` is `-1`, which violates the claimed lower bound
`0.0 ≤ faceSimilarity`: neither `compute_similarity` clips negative cosine
values. -/
theorem compute_similarity_negative_at_opposite_vectors :
    compute_similarity [1] [-1] = -1 ∧ ¬ (0 ≤ compute_similarity [1] [-1]) := by
  have hd1 : dot [(1:ℚ)] [(1:ℚ)] = 1 := by norm_num [dot]
  have hd2 : dot [(-1:ℚ)] [(-1:ℚ)] = 1 := by norm_num [dot]
  have hd3 : dot [(1:ℚ)] [(-1:ℚ)] = -1 := by norm_num [dot]
  have hval : compute_similarity [1] [-1] = -1 := by
    rw [compute_similarity, cosineSim, if_neg (by rw [hd1, hd2]; norm_num),
      hd1, hd2, hd3]
    norm_num [Real.sqrt_one]
  exact ⟨hval, by rw [hval]; norm_num⟩

/-- **C3 (amended).** For every pair of embeddings, the computed face
similarity satisfies `-1.0 ≤ faceSimilarity ≤ 1.0` (cosine similarity is
*not* clipped below at 0), and when either vector is degenerate (zero norm)
the similarity is `0.0` rather than an error or NaN. -/
theorem compute_similarity_range (emb1 emb2 : Emb) :
    (-1 ≤ compute_similarity emb1 emb2 ∧ compute_similarity emb1 emb2 ≤ 1) ∧
    (dot emb1 emb1 = 0 ∨ dot emb2 emb2 = 0 →
      compute_similarity emb1 emb2 = 0) := by
  refine ⟨cosineSim_bounds emb1 emb2, fun h => ?_⟩
  simp [compute_similarity, cosineSim, h]

/-- Witness for the amended C3: a degenerate (zero) first vector gives
similarity 0. -/
theorem compute_similarity_range_witness :
    compute_similarity [0] [1] = 0 :=
  (compute_similarity_range [0] [1]).2 (Or.inl (by simp [dot]))

/-! ## Name similarity (`FacialMatcher.fuzzy_ratio`, C9)

`fuzzy_ratio` delegates to `difflib.SequenceMatcher(None, a.lower(),
b.lower()).ratio()`.  For inputs shorter than 200 characters the autojunk
heuristic is inert and `ratio()` is the Ratcliff/Obershelp matching-block
ratio: recursively take the longest matching block (ties to the earliest
start in `a`, then in `b`), recurse on the left and right remainders, and
report `2 * totalMatched / (len(a) + len(b))`. -/

set_option maxRecDepth 10000

/-- Length of the longest common prefix of two character lists. -/
def commonPrefixLen : List Char → List Char → Nat
  | a :: as, b :: bs => if a = b then commonPrefixLen as bs + 1 else 0
  | _, _ => 0

/-- `SequenceMatcher.find_longest_match` over full windows, with no junk:
the longest matching block `(i, j, size)`, ties resolved to the smallest
start in `a` and then the smallest start in `b`.  (difflib scans end
positions in `a` and positions in `b` in increasing order, updating only on
strictly longer runs, which selects exactly this block.) -/
def findLongestMatch (a b : List Char) : Nat × Nat × Nat :=
  (List.range a.length).foldl (fun best i =>
    (List.range b.length).foldl (fun best j =>
      let k := commonPrefixLen (a.drop i) (b.drop j)
      if best.2.2 < k then (i, j, k) else best) best) (0, 0, 0)

/-- Total size of the blocks of `SequenceMatcher.get_matching_blocks`:
take the longest match, recurse left and right of it.  `fuel` bounds the
recursion depth; every recursive call strictly shrinks the `a`-window
(`findLongestMatch` returns `i + k ≤ a.length` with `k ≥ 1` on recursion),
so any `fuel > a.length` computes the full recursion. -/
def matchingTotal : Nat → List Char → List Char → Nat
  | 0, _, _ => 0
  | fuel+1, a, b =>
    match findLongestMatch a b with
    | (i, j, k) =>
      if k = 0 then 0
      else matchingTotal fuel (a.take i) (b.take j) + k
           + matchingTotal fuel (a.drop (i+k)) (b.drop (j+k))

/-- `str.lower()` as a character-wise map. -/
def lowerChars (s : String) : List Char := s.data.map Char.toLower

/-- Lower-cased string (`str.lower()`). -/
def pyLower (s : String) : String := ⟨lowerChars s⟩

/-- `FacialMatcher.fuzzy_ratio` (integrated_system.py lines 663-667):

    if not a or not b:
        return 0.0
    return SequenceMatcher(None, a.lower(), b.lower()).ratio()
-/
def fuzzy_ratio (a b : String) : ℚ :=
  if a.data = [] ∨ b.data = [] then 0
  else
    let la := lowerChars a
    let lb := lowerChars b
    mkRat (2 * matchingTotal (la.length + lb.length + 1) la lb)
      (la.length + lb.length)

theorem commonPrefixLen_le_left :
    ∀ a b : List Char, commonPrefixLen a b ≤ a.length := by
  intro a
  induction a with
  | nil => intro b; cases b <;> simp [commonPrefixLen]
  | cons x xs ih =>
    intro b
    cases b with
    | nil => simp [commonPrefixLen]
    | cons y ys =>
      by_cases h : x = y
      · simpa [commonPrefixLen, h] using ih ys
      · simp [commonPrefixLen, h]

theorem commonPrefixLen_le_right :
    ∀ a b : List Char, commonPrefixLen a b ≤ b.length := by
  intro a
  induction a with
  | nil => intro b; cases b <;> simp [commonPrefixLen]
  | cons x xs ih =>
    intro b
    cases b with
    | nil => simp [commonPrefixLen]
    | cons y ys =>
      by_cases h : x = y
      · simpa [commonPrefixLen, h] using ih ys
      · simp [commonPrefixLen, h]

/-- A fold preserves any predicate its step preserves. -/
theorem foldl_preserves {α β : Type} (p : β → Prop) (f : β → α → β) :
    ∀ (l : List α) (init : β), p init →
      (∀ acc x, x ∈ l → p acc → p (f acc x)) → p (l.foldl f init) := by
  intro l
  induction l with
  | nil =>
    intro init h _
    simpa using h
  | cons x xs ih =>
    intro init h hstep
    simp only [List.foldl_cons]
    exact ih _ (hstep init x (by simp) h)
      (fun acc y hy hacc => hstep acc y (by simp [hy]) hacc)

/-- The longest matching block lies inside both windows. -/
theorem findLongestMatch_bounds (a b : List Char) :
    (findLongestMatch a b).1 + (findLongestMatch a b).2.2 ≤ a.length ∧
    (findLongestMatch a b).2.1 + (findLongestMatch a b).2.2 ≤ b.length := by
  unfold findLongestMatch
  apply foldl_preserves
    (fun t : Nat × Nat × Nat =>
      t.1 + t.2.2 ≤ a.length ∧ t.2.1 + t.2.2 ≤ b.length)
  · simp
  · intro best i hi hbest
    apply foldl_preserves
      (fun t : Nat × Nat × Nat =>
        t.1 + t.2.2 ≤ a.length ∧ t.2.1 + t.2.2 ≤ b.length)
    · exact hbest
    · intro best' j hj hbest'
      by_cases h : best'.2.2 < commonPrefixLen (a.drop i) (b.drop j)
      · simp only [h, if_true]
        have hi' : i < a.length := List.mem_range.mp hi
        have hj' : j < b.length := List.mem_range.mp hj
        have h1 : commonPrefixLen (a.drop i) (b.drop j) ≤ a.length - i := by
          simpa using commonPrefixLen_le_left (a.drop i) (b.drop j)
        have h2 : commonPrefixLen (a.drop i) (b.drop j) ≤ b.length - j := by
          simpa using commonPrefixLen_le_right (a.drop i) (b.drop j)
        refine ⟨?_, ?_⟩
        · show i + commonPrefixLen (a.drop i) (b.drop j) ≤ a.length
          omega
        · show j + commonPrefixLen (a.drop i) (b.drop j) ≤ b.length
          omega
      · simpa [h] using hbest'

/-- The total matched size never exceeds either string's length. -/
theorem matchingTotal_le : ∀ (fuel : Nat) (a b : List Char),
    matchingTotal fuel a b ≤ a.length ∧ matchingTotal fuel a b ≤ b.length := by
  intro fuel
  induction fuel with
  | zero => intro a b; simp [matchingTotal]
  | succ n ih =>
    intro a b
    have hb := findLongestMatch_bounds a b
    rcases hflm : findLongestMatch a b with ⟨i, j, k⟩
    rw [hflm] at hb
    simp only at hb
    by_cases hk : k = 0
    · simp [matchingTotal, hflm, hk]
    · have h1 := ih (a.take i) (b.take j)
      have h2 := ih (a.drop (i+k)) (b.drop (j+k))
      simp only [matchingTotal, hflm, hk, if_false, List.length_take,
        List.length_drop] at h1 h2 ⊢
      omega

theorem fuzzy_ratio_nonneg (a b : String) : 0 ≤ fuzzy_ratio a b := by
  unfold fuzzy_ratio
  by_cases h : a.data = [] ∨ b.data = []
  · simp [h]
  · simp only [h, if_false]
    rw [Rat.mkRat_eq_div]
    positivity

theorem fuzzy_ratio_le_one (a b : String) : fuzzy_ratio a b ≤ 1 := by
  unfold fuzzy_ratio
  by_cases h : a.data = [] ∨ b.data = []
  · simp [h]
  · simp only [h, if_false]
    push_neg at h
    have hla : 0 < (lowerChars a).length := by
      simp only [lowerChars, List.length_map]
      exact List.length_pos.mpr h.1
    have hM := matchingTotal_le
      ((lowerChars a).length + (lowerChars b).length + 1)
      (lowerChars a) (lowerChars b)
    rw [Rat.mkRat_eq_div, div_le_one (by positivity)]
    have hnat :
        2 * matchingTotal ((lowerChars a).length + (lowerChars b).length + 1)
          (lowerChars a) (lowerChars b) ≤
        (lowerChars a).length + (lowerChars b).length := by
      omega
    exact_mod_cast hnat

/-- **C9 counterexample.** The name-similarity ratio of `"Jon Smith"` and
`"Alice Jones"` is `2/5 = 0.4` (matching blocks `"jon"` and `"s"`, so
`2*4/(9+11)`), which is *not* less than `0.3` as claimed. -/
theorem fuzzy_ratio_alice_jones_not_below_03 :
    fuzzy_ratio "Jon Smith" "Alice Jones" = mkRat 2 5 ∧
    ¬ (fuzzy_ratio "Jon Smith" "Alice Jones" < mkRat 3 10) := by
  constructor <;> decide

/-- **C9 (amended).** The name-similarity ratio is computed
case-insensitively as the Ratcliff/Obershelp matching-block ratio
`2*matches/(len(a)+len(b))` (the definition of `fuzzy_ratio` above); it
returns `0.0` whenever either string is empty; the ratio of `"Jon Smith"` to
`"John Smith"` is strictly greater than `0.9` and strictly less than `1.0`;
and the ratio of `"Jon Smith"` to `"Alice Jones"` is `0.4` — below `0.5`,
but not below `0.3` as claimed. -/
theorem fuzzy_ratio_spec :
    (∀ b : String, fuzzy_ratio "" b = 0) ∧
    (∀ a : String, fuzzy_ratio a "" = 0) ∧
    mkRat 9 10 < fuzzy_ratio "Jon Smith" "John Smith" ∧
    fuzzy_ratio "Jon Smith" "John Smith" < 1 ∧
    fuzzy_ratio "Jon Smith" "Alice Jones" = mkRat 2 5 := by
  refine ⟨fun b => ?_, fun a => ?_, by decide, by decide, by decide⟩
  · unfold fuzzy_ratio
    rw [if_pos (Or.inl rfl)]
  · unfold fuzzy_ratio
    rw [if_pos (Or.inr rfl)]

/-! ## Composite scoring (`FacialMatcher.score_profiles`, C2)

The per-candidate score of integrated_system.py lines 698-765: name
similarity (weight 20), location match (20), company match (10) and face
similarity (50), accumulated into `score` starting from `0.0`. -/

/-- Python's `needle in hay` substring test. -/
def strContains (needle hay : String) : Bool :=
  hay.data.tails.any (fun t => needle.data.isPrefixOf t)

/-- `ln_loc.split(",")[0].strip()` (integrated_system.py line 730). -/
def locationToken (ln_loc : String) : String :=
  ((ln_loc.splitOn ",").headD "").trim

structure LinkedInPerson where
  name : String
  location : String
  current_company : String
deriving DecidableEq, Repr

/-- One Facebook candidate as seen by the scoring loop: its display name,
the lower-cased page source `fb_page_text`, and the end-to-end outcome of
profile-image URL discovery → download → face extraction (`none` when any of
those steps fails, in which case the code leaves `face_score = 0.0`). -/
structure FBCandidate where
  url : String
  name : String
  pageText : String
  fb_emb : Option Emb

/-- The `score += sim * 50` component, guarded by both embeddings having
been resolved (integrated_system.py lines 743-756). -/
noncomputable def faceContribution : Option Emb → Option Emb → ℝ
  | some le, some fe => compute_similarity le fe * 50
  | _, _ => 0

/-- The location component (integrated_system.py lines 726-734):
`+20` when `ln_loc` is nonempty and its first comma token, stripped, is a
nonempty substring of the page text. -/
def locationContribution (ln_loc pageText : String) : ℚ :=
  if ln_loc ≠ "" ∧ locationToken ln_loc ≠ "" ∧
      strContains (locationToken ln_loc) pageText = true then 20 else 0

/-- The company component (integrated_system.py lines 736-741). -/
def companyContribution (ln_comp pageText : String) : ℚ :=
  if ln_comp ≠ "" ∧ strContains ln_comp pageText = true then 10 else 0

/-- The (unrounded) composite score of one candidate in
`FacialMatcher.score_profiles`; the stored `"score"` field is this value
rounded to 2 decimals, which maps the attained range onto itself.  The
person's name/location/company are lower-cased first as in lines 678-680. -/
noncomputable def candidateScore (person : LinkedInPerson)
    (linkedin_emb : Option Emb) (c : FBCandidate) : ℝ :=
  ((fuzzy_ratio (pyLower person.name) c.name * 20 : ℚ) : ℝ)
  + ((locationContribution (pyLower person.location) c.pageText : ℚ) : ℝ)
  + ((companyContribution (pyLower person.current_company) c.pageText : ℚ) : ℝ)
  + faceContribution linkedin_emb c.fb_emb

/-- Helper: a missing embedding on either side contributes exactly 0. -/
theorem faceContribution_undefined (x y : Option Emb) :
    faceContribution none y = 0 ∧ faceContribution x none = 0 := by
  constructor
  · rcases y with _ | fe <;> rfl
  · rcases x with _ | le <;> rfl

/-- Helper: the face component lies in `[-50, 50]`. -/
theorem faceContribution_bounds (x y : Option Emb) :
    -50 ≤ faceContribution x y ∧ faceContribution x y ≤ 50 := by
  rcases x with _ | le
  · rw [(faceContribution_undefined none y).1]; norm_num
  · rcases y with _ | fe
    · rw [(faceContribution_undefined (some le) none).2]; norm_num
    · obtain ⟨hl, hr⟩ := cosineSim_bounds le fe
      show -50 ≤ compute_similarity le fe * 50 ∧
        compute_similarity le fe * 50 ≤ 50
      unfold compute_similarity
      constructor <;> nlinarith [hl, hr]

/-- Helper: the location component is 0 or 20, the company one 0 or 10. -/
theorem textContribution_bounds (l c p : String) :
    0 ≤ locationContribution l p ∧ locationContribution l p ≤ 20 ∧
    0 ≤ companyContribution c p ∧ companyContribution c p ≤ 10 := by
  unfold locationContribution companyContribution
  split_ifs <;> norm_num

/-- Concrete value `compute_similarity [1] [-1] = -1`, shared by the C2
counterexample: embeddings pointing in opposite directions. -/
theorem compute_similarity_opposite : compute_similarity [1] [-1] = -1 := by
  have hd1 : dot [(1:ℚ)] [(1:ℚ)] = 1 := by norm_num [dot]
  have hd2 : dot [(-1:ℚ)] [(-1:ℚ)] = 1 := by norm_num [dot]
  have hd3 : dot [(1:ℚ)] [(-1:ℚ)] = -1 := by norm_num [dot]
  rw [compute_similarity, cosineSim, if_neg (by rw [hd1, hd2]; norm_num),
    hd1, hd2, hd3]
  norm_num [Real.sqrt_one]

/-- **C2 counterexample.** A person with empty textual attributes and a
candidate whose face embedding points opposite to the query embedding scores
`-50 < 0`: the composite score is *not* bounded below by 0, because the face
component `sim * 50` can be negative (cosine similarity is not clipped). -/
theorem candidateScore_negative_example :
    candidateScore ⟨"", "", ""⟩ (some [1]) ⟨"u", "Bob", "", some [-1]⟩ = -50 ∧
    candidateScore ⟨"", "", ""⟩ (some [1]) ⟨"u", "Bob", "", some [-1]⟩ < 0 := by
  have h1 : fuzzy_ratio (pyLower "") "Bob" = 0 := by decide
  have h2 : locationContribution (pyLower "") "" = 0 := by decide
  have h3 : companyContribution (pyLower "") "" = 0 := by decide
  have h4 : faceContribution (some [1]) (some [-1]) = -50 := by
    show compute_similarity [1] [-1] * 50 = -50
    rw [compute_similarity_opposite]; norm_num
  have hval : candidateScore ⟨"", "", ""⟩ (some [1])
      ⟨"u", "Bob", "", some [-1]⟩ = -50 := by
    show ((fuzzy_ratio (pyLower "") "Bob" * 20 : ℚ) : ℝ)
      + ((locationContribution (pyLower "") "" : ℚ) : ℝ)
      + ((companyContribution (pyLower "") "" : ℚ) : ℝ)
      + faceContribution (some [1]) (some [-1]) = -50
    rw [h1, h2, h3, h4]
    norm_num
  exact ⟨hval, by rw [hval]; norm_num⟩

/-- **C2 (amended).** Each composite score is the sum of a name component
`nameRatio * 20 ∈ [0, 20]`, a location component `∈ {0, 20}`, an employer
component `∈ {0, 10}` and a face component `faceSimilarity * 50 ∈ [-50, 50]`;
any undefined component (empty string, unresolved embedding) contributes 0;
the total is therefore in `[-50, 100]` — not `[0, 100]`, since the face
similarity can be negative — and, being total on this model, is never NaN or
negative infinity. -/
theorem candidateScore_range (person : LinkedInPerson)
    (linkedin_emb : Option Emb) (c : FBCandidate) :
    (-50 ≤ candidateScore person linkedin_emb c ∧
      candidateScore person linkedin_emb c ≤ 100) ∧
    faceContribution none c.fb_emb = 0 ∧
    faceContribution linkedin_emb none = 0 := by
  refine ⟨?_, (faceContribution_undefined none c.fb_emb).1,
    (faceContribution_undefined linkedin_emb none).2⟩
  have hn0 := fuzzy_ratio_nonneg (pyLower person.name) c.name
  have hn1 := fuzzy_ratio_le_one (pyLower person.name) c.name
  obtain ⟨hl0, hl1, hc0, hc1⟩ := textContribution_bounds
    (pyLower person.location) (pyLower person.current_company) c.pageText
  obtain ⟨hf0, hf1⟩ := faceContribution_bounds linkedin_emb c.fb_emb
  unfold candidateScore
  have hq0 : ((fuzzy_ratio (pyLower person.name) c.name * 20 : ℚ) : ℝ) ≤ 20 := by
    have : (fuzzy_ratio (pyLower person.name) c.name * 20 : ℚ) ≤ 20 := by
      nlinarith
    exact_mod_cast this
  have hq1 : (0:ℝ) ≤ ((fuzzy_ratio (pyLower person.name) c.name * 20 : ℚ) : ℝ) := by
    have : (0:ℚ) ≤ fuzzy_ratio (pyLower person.name) c.name * 20 := by
      nlinarith
    exact_mod_cast this
  have hlR0 : (0:ℝ) ≤ ((locationContribution (pyLower person.location) c.pageText : ℚ) : ℝ) := by
    exact_mod_cast hl0
  have hlR1 : ((locationContribution (pyLower person.location) c.pageText : ℚ) : ℝ) ≤ 20 := by
    exact_mod_cast hl1
  have hcR0 : (0:ℝ) ≤ ((companyContribution (pyLower person.current_company) c.pageText : ℚ) : ℝ) := by
    exact_mod_cast hc0
  have hcR1 : ((companyContribution (pyLower person.current_company) c.pageText : ℚ) : ℝ) ≤ 10 := by
    exact_mod_cast hc1
  constructor <;> linarith

end IdenLookup
